import Mathlib

/-!
Verification of the whitespace interpreter (`src/whitespace_interpreter.py`).

The embedding below is a shallow translation of the Python source.  The
program alphabet is the three significant characters (space, tab,
line-feed); the interpreter state is the `Machine` record mirroring the
fields of the Python `Interpreter` object (`stack`, `heap`, `pos`, `code`,
`input`, `output`, `loading`, `labels`, `return_positions`).  Python list
"stacks" append/pop at the right end; we represent them as Lean lists with
the head playing the role of the Python list's last element (the top), so
Python `append` is `cons` and `pop()` is head removal.  The Python program
counter `self.pos` is an integer that `FlowControl.exit` sets to
`float('inf')`; we model it by `WPos` (a natural number or `inf`).
Handlers mutate the interpreter object in place and Python exceptions
abort the run while keeping the mutations already applied, so every
handler is translated as `Machine → Machine × Option Err`: the returned
machine is the state at normal return or at the point the exception was
raised.
-/

/-- The three significant characters of a sanitized program:
space, tab, line-feed. -/
inductive WChar where
  | s : WChar
  | t : WChar
  | n : WChar
deriving DecidableEq, Repr

/-- The program counter: a zero-based offset, or the `float('inf')`
value stored by `FlowControl.exit`. -/
inductive WPos where
  | fin : Nat → WPos
  | inf : WPos
deriving DecidableEq, Repr

/-- The fatal conditions raised by the interpreter (each corresponds to one
`raise` site, or to a Python built-in exception raised by the source). -/
inductive Err where
  | emptyProgram            -- run(): SyntaxError('Unclean termination of program') on len 0
  | uncleanTermination      -- run(): RuntimeError('Unclean termination')
  | unbalancedSubroutines   -- run(): SyntaxError('Subroutine does not properly exit or return')
  | unknownInstruction      -- get_command / run top level: KeyError, no IMP matches
  | malformedNumber         -- num_parameter: SyntaxError('Number must include more than just the terminal.')
  | valueError              -- Python ValueError / IndexError inside from_whitespace, chr(), int()
  | stackUnderflow          -- list.pop() on an empty data stack (IndexError)
  | inputUnderflow          -- input.pop(0) on an empty input list (IndexError)
  | invalidStackIndex       -- duplicate_nth: ValueError, index exceeds stack size
  | negativeStackIndex      -- duplicate_nth: IndexError, negative index
  | heapMiss                -- Heap.push: KeyError, address never stored
  | divisionByZero          -- floordiv/mod: ZeroDivisionError
  | duplicateLabel          -- mark_label: ValueError('Label already exists')
  | undefinedLabel          -- jump/call_subroutine: KeyError on self.labels
  | returnOutsideSubroutine -- exit_subroutine: SyntaxError('Return outside of subroutine')
deriving DecidableEq, Repr

/-- The interpreter state: the fields of the Python `Interpreter` object
(the cosmetic `instruction`/`command` strings, which are only read back
for error messages, are omitted). -/
structure Machine where
  stack : List Int
  heap : Int → Option Int
  pos : WPos
  code : List WChar
  input : List Char
  output : List Nat          -- code points appended to self.output
  loading : Bool
  labels : List (List WChar × Nat)
  returnPositions : List WPos

/-- Model of `Interpreter.__init__`: fresh state for a sanitized program and an
input character sequence. -/
def Machine.init (code : List WChar) (input : List Char) : Machine :=
  { stack := [], heap := fun _ => none, pos := WPos.fin 0, code := code,
    input := input, output := [], loading := true, labels := [],
    returnPositions := [] }

/-- Model of `uncomment`: keep only the three significant characters of raw text. -/
def uncomment (raw : List Char) : List WChar :=
  raw.filterMap (fun c =>
    if c = ' ' then some WChar.s
    else if c = '\t' then some WChar.t
    else if c = '\n' then some WChar.n
    else none)

/-- Python `code.find('\n', start)` scanned from absolute index `i`. -/
def findLFfrom : List WChar → Nat → Int
  | [], _ => -1
  | c :: cs, i => if c = WChar.n then (i : Int) else findLFfrom cs (i + 1)

/-- Python `code.find('\n', start)`: absolute index of the first line-feed
at offset `start` or later, or `-1` if there is none. -/
def findLF (code : List WChar) (start : Nat) : Int :=
  findLFfrom (code.drop start) start

/-- The effective end index of a Python slice `code[a:b]` whose end bound
`b` may be negative (counted from the end of the string). -/
def pyEnd (len : Nat) (b : Int) : Nat :=
  if b < 0 then ((len : Int) + b).toNat else min b.toNat len

/-- Python slice `code[a:b]` with a nonnegative start and a possibly
negative end bound. -/
def pySlice (code : List WChar) (a : Nat) (b : Int) : List WChar :=
  (code.take (pyEnd code.length b)).drop a

/-- Model of `keys.index(x)` for `keys = [' ', '\t']` in `from_whitespace`:
the bit value of a character, `none` for the ValueError on a line-feed. -/
def bitVal : WChar → Option Nat
  | WChar.s => some 0
  | WChar.t => some 1
  | WChar.n => none

/-- Model of `int(binary, 2)`: the value of a most-significant-first bit string. -/
def bitsToNat (bits : List Nat) : Nat :=
  bits.foldl (fun acc b => 2 * acc + b) 0

/-- Model of `WhitespaceInt.from_whitespace`: decode the sign+binary body of a
numeric literal.  A one-character body yields `0` (the sign alone);
otherwise the first character is the sign (space `+`, tab `-`) and the
rest are binary digits.  `none` models the Python IndexError on an empty
body and the ValueError a line-feed character would raise. -/
def from_whitespace (body : List WChar) : Option Int :=
  if body.length = 1 then some 0
  else
    match body with
    | [] => none
    | c :: rest => do
        let s0 ← bitVal c
        let sgn : Int := 2 * (1 - (s0 : Int)) - 1
        let bits ← rest.mapM bitVal
        some (sgn * (bitsToNat bits : Int))

/-- Model of `Interpreter.num_parameter`: scan for the terminating line-feed from
`p` and decode the body before it.  Returns the found index (which is `-1`
when no line-feed exists, exactly as Python `str.find` does) together with
the decoded value; the only guarded failure is the line-feed standing at
`p` itself. -/
def num_parameter (code : List WChar) (p : Nat) : Except Err (Int × Int) :=
  let index := findLF code p
  if index = (p : Int) then Except.error Err.malformedNumber
  else
    match from_whitespace (pySlice code p index) with
    | some v => Except.ok (index, v)
    | none => Except.error Err.valueError

/-- Model of `Interpreter.label_parameter`: `index` is one past the terminating
line-feed (`0` when there is none, since `find` returned `-1`), and the
name is `code[p:index]`, which includes the terminator. -/
def label_parameter (code : List WChar) (p : Nat) : Nat × List WChar :=
  let index := findLF code p + 1
  (index.toNat, pySlice code p index)

/-- Lookup in the Python dict `self.labels`. -/
def lookup_label (labels : List (List WChar × Nat)) (nm : List WChar) :
    Option Nat :=
  (labels.find? (fun kv => decide (kv.1 = nm))).map (fun kv => kv.2)

/-- Model of `Interpreter.get_command`: try the one-character slice at `p`; if it is
not a key of the table, take the two-character slice; return the matched
operation and the offset advanced past the matched key, or `none` for the
KeyError when nothing matches. -/
def get_command {α : Type} (table : List (List WChar × α))
    (code : List WChar) (p : Nat) : Option (α × Nat) :=
  let t1 := (code.drop p).take 1
  let token :=
    if (table.find? (fun kv => decide (kv.1 = t1))).isSome then t1
    else (code.drop p).take 2
  match table.find? (fun kv => decide (kv.1 = token)) with
  | some kv => some (kv.2, p + kv.1.length)
  | none => none

/-- The five instruction families ( IMP categories). -/
inductive Family where
  | stackF | arithF | heapF | ioF | flowF
deriving DecidableEq, Repr

/-- Model of `Interpreter.IMP`: the top-level dispatch table. -/
def impTable : List (List WChar × Family) :=
  [([WChar.s], Family.stackF),
   ([WChar.t, WChar.s], Family.arithF),
   ([WChar.t, WChar.t], Family.heapF),
   ([WChar.t, WChar.n], Family.ioF),
   ([WChar.n], Family.flowF)]

/-- Stack-family operations (`Stack.STACK_IMP` values). -/
inductive StackOp where
  | pushNum | duplicateNth | discardNOp | duplicateTop | swapOp | discardTopOp
deriving DecidableEq, Repr

/-- Model of `Stack.STACK_IMP`. -/
def stackTable : List (List WChar × StackOp) :=
  [([WChar.s], StackOp.pushNum),
   ([WChar.t, WChar.s], StackOp.duplicateNth),
   ([WChar.t, WChar.n], StackOp.discardNOp),
   ([WChar.n, WChar.s], StackOp.duplicateTop),
   ([WChar.n, WChar.t], StackOp.swapOp),
   ([WChar.n, WChar.n], StackOp.discardTopOp)]

/-- Arithmetic-family operations (`Arithmetic.ARITHMETIC_IMP` values). -/
inductive ArithOp where
  | addOp | subOp | mulOp | floordivOp | modOp
deriving DecidableEq, Repr

/-- Model of `Arithmetic.ARITHMETIC_IMP`. -/
def arithTable : List (List WChar × ArithOp) :=
  [([WChar.s, WChar.s], ArithOp.addOp),
   ([WChar.s, WChar.t], ArithOp.subOp),
   ([WChar.s, WChar.n], ArithOp.mulOp),
   ([WChar.t, WChar.s], ArithOp.floordivOp),
   ([WChar.t, WChar.t], ArithOp.modOp)]

/-- Heap-family operations (`Heap.HEAP_IMP` values). -/
inductive HeapOp where
  | storeOp | heapPushOp
deriving DecidableEq, Repr

/-- Model of `Heap.HEAP_IMP`. -/
def heapTable : List (List WChar × HeapOp) :=
  [([WChar.s], HeapOp.storeOp),
   ([WChar.t], HeapOp.heapPushOp)]

/-- I/O-family operations (`IO_IMP` values of the Python `IO` class). -/
inductive IoOp where
  | outputCharOp | outputNumOp | inputCharOp | inputNumOp
deriving DecidableEq, Repr

/-- The `IO_IMP` table of the I/O family. -/
def ioTable : List (List WChar × IoOp) :=
  [([WChar.s, WChar.s], IoOp.outputCharOp),
   ([WChar.s, WChar.t], IoOp.outputNumOp),
   ([WChar.t, WChar.s], IoOp.inputCharOp),
   ([WChar.t, WChar.t], IoOp.inputNumOp)]

/-- Flow-control operations (`FlowControl.FLOW_IMP` values). -/
inductive FlowOp where
  | markLabel | callSubroutine | jumpOp | jumpZero | jumpLtZero
  | exitSubroutine | exitOp
deriving DecidableEq, Repr

/-- Model of `FlowControl.FLOW_IMP`. -/
def flowTable : List (List WChar × FlowOp) :=
  [([WChar.s, WChar.s], FlowOp.markLabel),
   ([WChar.s, WChar.t], FlowOp.callSubroutine),
   ([WChar.s, WChar.n], FlowOp.jumpOp),
   ([WChar.t, WChar.s], FlowOp.jumpZero),
   ([WChar.t, WChar.t], FlowOp.jumpLtZero),
   ([WChar.t, WChar.n], FlowOp.exitSubroutine),
   ([WChar.n, WChar.n], FlowOp.exitOp)]

/-- Model of `self.heap[b] = v`. -/
def heapStore (h : Int → Option Int) (addr v : Int) : Int → Option Int :=
  fun x => if x = addr then some v else h x

/-- Model of `Stack.push_num`. -/
def push_num (item : Int) (m : Machine) : Machine :=
  { m with stack := item :: m.stack }

/-- Model of `Stack.duplicate_nth`: guard the index against the stack size, then
push a copy of the `n`-th value from the top (the guards make the
`getD` read in range). -/
def duplicate_nth (n : Int) (m : Machine) : Machine × Option Err :=
  if n > (m.stack.length : Int) - 1 then (m, some Err.invalidStackIndex)
  else if n < 0 then (m, some Err.negativeStackIndex)
  else ({ m with stack := m.stack.getD n.toNat 0 :: m.stack }, none)

/-- Model of `Stack.discard_n`: clamp an out-of-range count to `size - 1`, pop the
top, pop `n` more values, push the top back.  On an empty stack the first
pop raises; the inner pops can never outrun the stack (the clamp bounds
the count by `size - 1`), the second error arm records the exhausted
stack Python would leave behind. -/
def discard_n (n : Int) (m : Machine) : Machine × Option Err :=
  let k := if n ≥ (m.stack.length : Int) ∨ n < 0
           then (m.stack.length : Int) - 1 else n
  match m.stack with
  | [] => (m, some Err.stackUnderflow)
  | top :: rest =>
      if k.toNat ≤ rest.length then
        ({ m with stack := top :: rest.drop k.toNat }, none)
      else ({ m with stack := [] }, some Err.stackUnderflow)

/-- Model of `Stack.discard_top`. -/
def discard_top (m : Machine) : Machine × Option Err :=
  match m.stack with
  | [] => (m, some Err.stackUnderflow)
  | _ :: rest => ({ m with stack := rest }, none)

/-- Model of `Stack.swap`: pop `a` (top) then `b`, append `a` then `b`.  With one
element the first pop succeeds and the second raises, leaving the stack
empty. -/
def swap (m : Machine) : Machine × Option Err :=
  match m.stack with
  | [] => (m, some Err.stackUnderflow)
  | [_] => ({ m with stack := [] }, some Err.stackUnderflow)
  | a :: b :: rest => ({ m with stack := b :: a :: rest }, none)

/-- Model of `IO.output_char`: pop a value, then `chr` it.  CPython `chr` accepts
exactly the code points `0 ≤ v ≤ 0x10FFFF` (lone surrogates included) and
raises ValueError otherwise; the pop has already happened either way. -/
def output_char (m : Machine) : Machine × Option Err :=
  match m.stack with
  | [] => (m, some Err.stackUnderflow)
  | v :: rest =>
      if 0 ≤ v ∧ v ≤ 0x10FFFF then
        ({ m with stack := rest, output := m.output ++ [v.toNat] }, none)
      else ({ m with stack := rest }, some Err.valueError)

/-- Model of `IO.output_num`: pop a value and append its decimal representation
(Python `str(int)` agrees with Lean `toString` on integers). -/
def output_num (m : Machine) : Machine × Option Err :=
  match m.stack with
  | [] => (m, some Err.stackUnderflow)
  | v :: rest =>
      ({ m with stack := rest,
                output := m.output ++ (toString v).data.map Char.toNat }, none)

/-- Model of `IO.input_char`: `self.input.pop(0)` runs first and its mutation
persists, then the address is popped, then the heap is written. -/
def input_char (m : Machine) : Machine × Option Err :=
  match m.input with
  | [] => (m, some Err.inputUnderflow)
  | a :: restIn =>
      match m.stack with
      | [] => ({ m with input := restIn }, some Err.stackUnderflow)
      | b :: rest =>
          ({ m with input := restIn, stack := rest,
                    heap := heapStore m.heap b (a.toNat : Int) }, none)

/-- Model of `self.input.index('\n')`: index of the first line-feed of the input,
`none` for the ValueError when there is none. -/
def inputFindLF (input : List Char) : Option Nat :=
  input.findIdx? (fun c => c = '\n')

/-- CPython `int(s)` on the decoded text: surrounding whitespace stripped,
an optional sign, then a non-empty digit string (digit-group underscores
and non-ASCII digits are not used by any claim and are not modelled). -/
def pyInt (s : List Char) : Option Int :=
  let t := ((s.dropWhile (fun c => c = ' ')).reverse.dropWhile
              (fun c => c = ' ')).reverse
  let (neg, ds) :=
    match t with
    | '-' :: rest => (true, rest)
    | '+' :: rest => (false, rest)
    | _ => (false, t)
  if ds ≠ [] ∧ ds.all Char.isDigit then
    let v : Int := (ds.foldl (fun acc c => 10 * acc + (c.toNat - 48)) 0 : Nat)
    some (if neg then -v else v)
  else none

/-- Model of `IO.input_num`: pop the address first, then scan the input up to the
line-feed, consume that prefix, parse it and store it. -/
def input_num (m : Machine) : Machine × Option Err :=
  match m.stack with
  | [] => (m, some Err.stackUnderflow)
  | b :: rest =>
      let m1 := { m with stack := rest }
      match inputFindLF m.input with
      | none => (m1, some Err.valueError)
      | some idx =>
          let numStr := m.input.take idx
          let m2 := { m1 with input := m.input.drop (idx + 1) }
          match pyInt numStr with
          | none => (m2, some Err.valueError)
          | some v => ({ m2 with heap := heapStore m2.heap b v }, none)

/-- Model of `Heap.store`: pop `a` (value) then `b` (address); `heap[b] = a`.  On a
one-element stack the first pop has already emptied it. -/
def heap_store (m : Machine) : Machine × Option Err :=
  match m.stack with
  | [] => (m, some Err.stackUnderflow)
  | [_] => ({ m with stack := [] }, some Err.stackUnderflow)
  | a :: b :: rest =>
      ({ m with stack := rest, heap := heapStore m.heap b a }, none)

/-- Model of `Heap.push`: pop an address and push the stored value; a missing
address is the KeyError, raised after the pop. -/
def heap_push (m : Machine) : Machine × Option Err :=
  match m.stack with
  | [] => (m, some Err.stackUnderflow)
  | a :: rest =>
      match m.heap a with
      | none => ({ m with stack := rest }, some Err.heapMiss)
      | some v => ({ m with stack := v :: rest }, none)

/-- The shared pop-pop-combine shape of the arithmetic handlers: pop `a`
(top) then `b`, push `f a b` or record the error with both values
popped. -/
def arith_bin (f : Int → Int → Except Err Int) (m : Machine) :
    Machine × Option Err :=
  match m.stack with
  | [] => (m, some Err.stackUnderflow)
  | [_] => ({ m with stack := [] }, some Err.stackUnderflow)
  | a :: b :: rest =>
      match f a b with
      | Except.ok c => ({ m with stack := c :: rest }, none)
      | Except.error e => ({ m with stack := rest }, some e)

/-- Model of `Arithmetic.add`. -/
def arith_add (m : Machine) : Machine × Option Err :=
  arith_bin (fun a b => Except.ok (b + a)) m

/-- Model of `Arithmetic.sub`. -/
def arith_sub (m : Machine) : Machine × Option Err :=
  arith_bin (fun a b => Except.ok (b - a)) m

/-- Model of `Arithmetic.mul`. -/
def arith_mul (m : Machine) : Machine × Option Err :=
  arith_bin (fun a b => Except.ok (b * a)) m

/-- Model of `Arithmetic.floordiv`: Python `b // a` is flooring division,
`Int.fdiv b a`; division by zero is guarded after both pops. -/
def arith_floordiv (m : Machine) : Machine × Option Err :=
  arith_bin (fun a b =>
    if a = 0 then Except.error Err.divisionByZero
    else Except.ok (Int.fdiv b a)) m

/-- Model of `Arithmetic.mod`: Python `b % a` is floor-convention remainder,
`Int.fmod b a`; division by zero is guarded after both pops. -/
def arith_mod (m : Machine) : Machine × Option Err :=
  arith_bin (fun a b =>
    if a = 0 then Except.error Err.divisionByZero
    else Except.ok (Int.fmod b a)) m

/-- Model of `Stack.parse` (called with `m.pos = WPos.fin p`): secondary dispatch
over `STACK_IMP`, then the selected operation.  Operations taking a
numeric literal decode it in both phases (so the offset stays
synchronized) but only mutate the stack in the execution phase; the
offset update `self.pos = index + 1` is skipped when the operation
raises. -/
def stack_parse (m : Machine) (p : Nat) : Machine × Option Err :=
  match get_command stackTable m.code p with
  | none => (m, some Err.unknownInstruction)
  | some (op, p1) =>
      let m1 := { m with pos := WPos.fin p1 }
      match op with
      | StackOp.pushNum =>
          match num_parameter m1.code p1 with
          | Except.error e => (m1, some e)
          | Except.ok (index, item) =>
              let m2 := if m1.loading then m1 else push_num item m1
              ({ m2 with pos := WPos.fin (index + 1).toNat }, none)
      | StackOp.duplicateNth =>
          match num_parameter m1.code p1 with
          | Except.error e => (m1, some e)
          | Except.ok (index, item) =>
              if m1.loading then
                ({ m1 with pos := WPos.fin (index + 1).toNat }, none)
              else
                match duplicate_nth item m1 with
                | (m2, some e) => (m2, some e)
                | (m2, none) =>
                    ({ m2 with pos := WPos.fin (index + 1).toNat }, none)
      | StackOp.discardNOp =>
          match num_parameter m1.code p1 with
          | Except.error e => (m1, some e)
          | Except.ok (index, item) =>
              if m1.loading then
                ({ m1 with pos := WPos.fin (index + 1).toNat }, none)
              else
                match discard_n item m1 with
                | (m2, some e) => (m2, some e)
                | (m2, none) =>
                    ({ m2 with pos := WPos.fin (index + 1).toNat }, none)
      | StackOp.duplicateTop =>
          if m1.loading then (m1, none) else duplicate_nth 0 m1
      | StackOp.swapOp =>
          if m1.loading then (m1, none) else swap m1
      | StackOp.discardTopOp =>
          if m1.loading then (m1, none) else discard_top m1

/-- Model of `IO.parse`: secondary dispatch over `IO_IMP`; during the loading phase
the method returns right after the dispatch, before any side effect. -/
def io_parse (m : Machine) (p : Nat) : Machine × Option Err :=
  match get_command ioTable m.code p with
  | none => (m, some Err.unknownInstruction)
  | some (op, p1) =>
      let m1 := { m with pos := WPos.fin p1 }
      if m1.loading then (m1, none)
      else
        match op with
        | IoOp.outputCharOp => output_char m1
        | IoOp.outputNumOp => output_num m1
        | IoOp.inputCharOp => input_char m1
        | IoOp.inputNumOp => input_num m1

/-- Model of `Arithmetic.parse`: secondary dispatch over `ARITHMETIC_IMP`; a no-op
after the dispatch during the loading phase. -/
def arithmetic_parse (m : Machine) (p : Nat) : Machine × Option Err :=
  match get_command arithTable m.code p with
  | none => (m, some Err.unknownInstruction)
  | some (op, p1) =>
      let m1 := { m with pos := WPos.fin p1 }
      if m1.loading then (m1, none)
      else
        match op with
        | ArithOp.addOp => arith_add m1
        | ArithOp.subOp => arith_sub m1
        | ArithOp.mulOp => arith_mul m1
        | ArithOp.floordivOp => arith_floordiv m1
        | ArithOp.modOp => arith_mod m1

/-- Model of `Heap.parse`: secondary dispatch over `HEAP_IMP`; a no-op after the
dispatch during the loading phase. -/
def heap_parse (m : Machine) (p : Nat) : Machine × Option Err :=
  match get_command heapTable m.code p with
  | none => (m, some Err.unknownInstruction)
  | some (op, p1) =>
      let m1 := { m with pos := WPos.fin p1 }
      if m1.loading then (m1, none)
      else
        match op with
        | HeapOp.storeOp => heap_store m1
        | HeapOp.heapPushOp => heap_push m1

/-- Model of `FlowControl.parse`: secondary dispatch over `FLOW_IMP` and the
per-operation behaviour of the source, including its phase gating:
`exit` acts only in the execution phase; `mark_label` inserts only during
loading (where a duplicate raises before the offset update); the jumps
decode their label in both phases but only pop/jump while executing;
`call_subroutine` always advances the offset past the label first and the
KeyError of an undefined label is raised after the return position was
appended. -/
def flow_parse (m : Machine) (p : Nat) : Machine × Option Err :=
  match get_command flowTable m.code p with
  | none => (m, some Err.unknownInstruction)
  | some (op, p1) =>
      let m1 := { m with pos := WPos.fin p1 }
      match op with
      | FlowOp.exitOp =>
          if m1.loading then (m1, none)
          else ({ m1 with pos := WPos.inf }, none)
      | FlowOp.markLabel =>
          let (index, label) := label_parameter m1.code p1
          if m1.loading then
            match lookup_label m1.labels label with
            | some _ => (m1, some Err.duplicateLabel)
            | none =>
                ({ m1 with labels := m1.labels ++ [(label, p1 + label.length)],
                           pos := WPos.fin index }, none)
          else ({ m1 with pos := WPos.fin index }, none)
      | FlowOp.jumpOp =>
          let (index, label) := label_parameter m1.code p1
          if m1.loading then ({ m1 with pos := WPos.fin index }, none)
          else
            match lookup_label m1.labels label with
            | some j => ({ m1 with pos := WPos.fin j }, none)
            | none => (m1, some Err.undefinedLabel)
      | FlowOp.jumpZero =>
          let (index, label) := label_parameter m1.code p1
          if m1.loading then ({ m1 with pos := WPos.fin index }, none)
          else
            match m1.stack with
            | [] => (m1, some Err.stackUnderflow)
            | v :: rest =>
                let m2 := { m1 with stack := rest }
                if v = 0 then
                  match lookup_label m2.labels label with
                  | some j => ({ m2 with pos := WPos.fin j }, none)
                  | none => (m2, some Err.undefinedLabel)
                else ({ m2 with pos := WPos.fin index }, none)
      | FlowOp.jumpLtZero =>
          let (index, label) := label_parameter m1.code p1
          if m1.loading then ({ m1 with pos := WPos.fin index }, none)
          else
            match m1.stack with
            | [] => (m1, some Err.stackUnderflow)
            | v :: rest =>
                let m2 := { m1 with stack := rest }
                if v < 0 then
                  match lookup_label m2.labels label with
                  | some j => ({ m2 with pos := WPos.fin j }, none)
                  | none => (m2, some Err.undefinedLabel)
                else ({ m2 with pos := WPos.fin index }, none)
      | FlowOp.exitSubroutine =>
          if m1.loading then (m1, none)
          else
            match m1.returnPositions with
            | [] => (m1, some Err.returnOutsideSubroutine)
            | r :: rs => ({ m1 with pos := r, returnPositions := rs }, none)
      | FlowOp.callSubroutine =>
          let (index, label) := label_parameter m1.code p1
          let m2 := { m1 with pos := WPos.fin index }
          if m2.loading then (m2, none)
          else
            let m3 := { m2 with
                        returnPositions := WPos.fin index :: m2.returnPositions }
            match lookup_label m3.labels label with
            | some j => ({ m3 with pos := WPos.fin j }, none)
            | none => (m3, some Err.undefinedLabel)

/-- One iteration of the `while` loop of `Interpreter.run`: top-level IMP
dispatch (which advances the offset past the family token before the
family's `parse` runs), then the family dispatch.  `p` is the current
finite offset (`m.pos = WPos.fin p`). -/
def step (m : Machine) (p : Nat) : Machine × Option Err :=
  match get_command impTable m.code p with
  | none => (m, some Err.unknownInstruction)
  | some (fam, p2) =>
      let m1 := { m with pos := WPos.fin p2 }
      match fam with
      | Family.stackF => stack_parse m1 p2
      | Family.arithF => arithmetic_parse m1 p2
      | Family.heapF => heap_parse m1 p2
      | Family.ioF => io_parse m1 p2
      | Family.flowF => flow_parse m1 p2

/-- The `while self.pos < self.code_length` loop of `Interpreter.run`,
with explicit fuel (`none` means the fuel ran out before the loop did;
the source loop itself can run forever).  A `some` result is the machine
when the loop condition first fails, or the machine and error at the
moment a handler raised. -/
def runLoop : Nat → Machine → Option (Machine × Option Err)
  | 0, _ => none
  | fuel + 1, m =>
      match m.pos with
      | WPos.inf => some (m, none)
      | WPos.fin p =>
          if p < m.code.length then
            match step m p with
            | (m', none) => runLoop fuel m'
            | (m', some e) => some (m', some e)
          else some (m, none)

/-- The phase hand-off of `Interpreter.run`: after the loading loop ends,
the offset is reset to zero and the loading flag cleared before the loop
is rerun. -/
def toExecution (m : Machine) : Machine :=
  { m with pos := WPos.fin 0, loading := false }

/-- The tail of `Interpreter.run` after the execution-phase loop: the
unbalanced-subroutine check (skipped when the loop ended via `exit`,
because `self.pos` is then infinite), then the unclean-termination
check. -/
def finish (m : Machine) : Machine × Option Err :=
  if m.returnPositions ≠ [] ∧ m.pos ≠ WPos.inf then
    (m, some Err.unbalancedSubroutines)
  else if m.pos = WPos.fin m.code.length then
    (m, some Err.uncleanTermination)
  else (m, none)

/-- Model of `Interpreter.run` on a fresh machine: the empty-program guard, the
loading-phase loop, the hand-off (`self.pos = 0; self.loading = False;
self.run()`), the execution-phase loop, and the terminal checks.  `none`
is fuel exhaustion. -/
def run (fuel : Nat) (m : Machine) : Option (Machine × Option Err) :=
  if m.code.length = 0 then some (m, some Err.emptyProgram)
  else
    match runLoop fuel m with
    | none => none
    | some (m1, some e) => some (m1, some e)
    | some (m1, none) =>
        if m1.loading then
          match runLoop fuel (toExecution m1) with
          | none => none
          | some (m3, some e) => some (m3, some e)
          | some (m3, none) => some (finish m3)
        else some (finish m1)

/-- A machine that differs from the fresh one only in its data stack
(used to exercise single stack operations). -/
def mkStack (s : List Int) : Machine :=
  { Machine.init [] [] with stack := s }

/-- The loading-phase frame relation for one loop iteration: data stack,
heap, output, input and return stack are untouched, the phase is still
Discovery, the program is fixed, and the label table is either unchanged
or extended by exactly one entry (a `mark_label`). -/
def DiscFrame (m m' : Machine) : Prop :=
  m'.stack = m.stack ∧ m'.heap = m.heap ∧ m'.output = m.output ∧
  m'.input = m.input ∧ m'.returnPositions = m.returnPositions ∧
  m'.loading = true ∧ m'.code = m.code ∧
  (m'.labels = m.labels ∨ ∃ nm j, m'.labels = m.labels ++ [(nm, j)])

/-- Sanitized program `push 0`-prefix with an unterminated numeric
literal: space (Stack family), space (push_num), then tab tab and no
line-feed before the end of the program. -/
def progC2 : List WChar := [WChar.s, WChar.s, WChar.t, WChar.t]

/-- Sanitized program `call_subroutine ""; mark_label ""; exit`: the
subroutine call pushes a return position, the callee is the `exit`
instruction, so the run ends via `exit` with the return position still on
the Return Stack. -/
def progC1 : List WChar :=
  [WChar.n, WChar.s, WChar.t, WChar.n,
   WChar.n, WChar.s, WChar.s, WChar.n,
   WChar.n, WChar.n, WChar.n]

/-- Sanitized program `exit; mark_label ""; mark_label ""`: the exit
instruction is scanned first during Discovery (where it has no effect)
and the duplicate label definition after it aborts the run. -/
def progC5 : List WChar :=
  [WChar.n, WChar.n, WChar.n,
   WChar.n, WChar.s, WChar.s, WChar.n,
   WChar.n, WChar.s, WChar.s, WChar.n]

theorem fmod_nonpos_of_neg (b a : Int) (ha : a < 0) : Int.fmod b a ≤ 0 := by
  obtain ⟨n, rfl⟩ := Int.eq_negSucc_of_lt_zero ha
  match b with
  | Int.ofNat 0 => simp [Int.fmod]
  | Int.ofNat (m + 1) =>
      show Int.subNatNat (m % Nat.succ n) n ≤ 0
      rw [Int.subNatNat_eq_coe]
      have h := Nat.mod_lt m (Nat.succ_pos n)
      omega
  | Int.negSucc m =>
      show -(Int.ofNat (Nat.succ m % Nat.succ n)) ≤ 0
      exact neg_nonpos_of_nonneg (Int.ofNat_zero_le _)

theorem runLoop_progC2 (fuel : Nat) :
    runLoop fuel (Machine.init progC2 []) = none := by
  induction fuel with
  | zero => rfl
  | succ k ih =>
      have h : runLoop (k + 1) (Machine.init progC2 []) =
          runLoop k (Machine.init progC2 []) := rfl
      rw [h]
      exact ih

/-- C2: the claim says a numeric or label literal with no terminating
line-feed before the end of the program is a fatal MalformedLiteral
error.  The code instead lets Python `find` return `-1` unguarded:
`num_parameter` succeeds with index `-1` (decoding `code[pos:-1]`),
`label_parameter` returns index `0` with an empty name, and the run of
the program `"  \t\t"` (a `push_num` whose literal `"\t"` is
unterminated) resets the offset to `index + 1 = 0` and loops forever —
`run` diverges for every amount of fuel instead of raising the claimed
error. -/
theorem C2_theorem :
    num_parameter progC2 2 = Except.ok (-1, 0) ∧
    label_parameter progC2 2 = (0, []) ∧
    ∀ fuel : Nat, run fuel (Machine.init progC2 []) = none := by
  refine ⟨rfl, rfl, fun fuel => ?_⟩
  unfold run
  rw [if_neg (by decide : ¬ (Machine.init progC2 []).code.length = 0),
    runLoop_progC2 fuel]

/-- C3 counterexample: decoding the numeric literal of the program
`"  \n"` at offset `2` — the terminating line-feed is the very first
character — does not yield `0`; it raises the SyntaxError
`'Number must include more than just the terminal.'`. -/
theorem C3_counterexample :
    num_parameter [WChar.s, WChar.s, WChar.n] 2 =
      Except.error Err.malformedNumber := rfl

/-- C3 (amended): a numeric literal whose body is empty (the terminating
line-feed stands at the start offset) is a fatal error, not the value 0;
it is a body of exactly one character (the sign alone, no digits) that
decodes to 0 with no further digits required. -/
theorem C3_theorem :
    (∀ (code : List WChar) (p : Nat), findLF code p = (p : Int) →
        num_parameter code p = Except.error Err.malformedNumber) ∧
    (∀ c : WChar, from_whitespace [c] = some 0) := by
  constructor
  · intro code p h
    simp [num_parameter, h]
  · intro c
    rfl

theorem C3_witness :
    num_parameter [WChar.n] 0 = Except.error Err.malformedNumber ∧
    from_whitespace [WChar.t] = some 0 :=
  ⟨C3_theorem.1 [WChar.n] 0 rfl, C3_theorem.2 WChar.t⟩

/-- C4 counterexample: on the stack `[1, 2]` (top `1`), `swap` succeeds
and leaves `[2, 1]` — the top two values are exchanged, so the stack
order is not unchanged as the claim states. -/
theorem C4_counterexample :
    (swap (mkStack [1, 2])).1.stack = [2, 1] ∧
    (swap (mkStack [1, 2])).2 = none ∧
    (swap (mkStack [1, 2])).1.stack ≠ [1, 2] := by decide

/-- C4 (amended): `swap` pops `a` (the top) then `b` (the second) and
pushes `a` then `b`, which exchanges the top two stack values (the old
second value ends on top); on a stack with fewer than 2 elements it
fails with a fatal stack underflow. -/
theorem C4_theorem :
    (∀ (m : Machine) (a b : Int) (rest : List Int),
        m.stack = a :: b :: rest →
        swap m = ({ m with stack := b :: a :: rest }, none)) ∧
    (∀ m : Machine, m.stack.length < 2 →
        (swap m).2 = some Err.stackUnderflow) := by
  constructor
  · intro m a b rest h
    cases m
    simp only at h
    subst h
    rfl
  · intro m h
    cases m with
    | mk stk hp ps cd inp out ld lbl ret =>
        match stk, h with
        | [], _ => rfl
        | [x], _ => rfl

theorem C4_witness :
    swap (mkStack [5, 7]) = (mkStack [7, 5], none) ∧
    (swap (mkStack [5])).2 = some Err.stackUnderflow :=
  ⟨C4_theorem.1 (mkStack [5, 7]) 5 7 [] rfl, C4_theorem.2 (mkStack [5]) (by decide)⟩

/-- C7: with a non-zero divisor `a` popped from the top above `b`, `mod`
pushes `Int.fmod b a` (Python `b % a`) and `floordiv` pushes
`Int.fdiv b a` (Python `b // a`); the remainder has the sign of the
divisor (or is 0) and the floor-division identity
`floordiv(b,a) * a + mod(b,a) = b` holds.  With divisor 0 both
operations raise the fatal ZeroDivisionError after the two pops, pushing
nothing. -/
theorem C7_theorem :
    (∀ (m : Machine) (a b : Int) (rest : List Int),
        m.stack = a :: b :: rest → a ≠ 0 →
        arith_mod m = ({ m with stack := Int.fmod b a :: rest }, none) ∧
        arith_floordiv m =
          ({ m with stack := Int.fdiv b a :: rest }, none) ∧
        (0 < a → 0 ≤ Int.fmod b a) ∧
        (a < 0 → Int.fmod b a ≤ 0) ∧
        Int.fdiv b a * a + Int.fmod b a = b) ∧
    (∀ (m : Machine) (b : Int) (rest : List Int),
        m.stack = 0 :: b :: rest →
        arith_mod m = ({ m with stack := rest }, some Err.divisionByZero) ∧
        arith_floordiv m =
          ({ m with stack := rest }, some Err.divisionByZero)) := by
  constructor
  · intro m a b rest h ha
    refine ⟨?_, ?_, ?_, ?_, ?_⟩
    · cases m
      simp only at h
      subst h
      simp [arith_mod, arith_bin, ha]
    · cases m
      simp only at h
      subst h
      simp [arith_floordiv, arith_bin, ha]
    · intro hpos
      exact Int.fmod_nonneg' b hpos
    · intro hneg
      exact fmod_nonpos_of_neg b a hneg
    · rw [Int.mul_comm]
      exact Int.fdiv_add_fmod b a
  · intro m b rest h
    constructor
    · cases m
      simp only at h
      subst h
      simp [arith_mod, arith_bin]
    · cases m
      simp only at h
      subst h
      simp [arith_floordiv, arith_bin]

theorem C7_witness :
    (arith_mod (mkStack [3, -7]) =
        ({ mkStack [3, -7] with stack := [Int.fmod (-7) 3] }, none) ∧
      arith_floordiv (mkStack [3, -7]) =
        ({ mkStack [3, -7] with stack := [Int.fdiv (-7) 3] }, none) ∧
      (0 < (3 : Int) → 0 ≤ Int.fmod (-7) 3) ∧
      ((3 : Int) < 0 → Int.fmod (-7) 3 ≤ 0) ∧
      Int.fdiv (-7) 3 * 3 + Int.fmod (-7) 3 = -7) ∧
    (arith_mod (mkStack [0, 5]) =
        ({ mkStack [0, 5] with stack := [] }, some Err.divisionByZero) ∧
      arith_floordiv (mkStack [0, 5]) =
        ({ mkStack [0, 5] with stack := [] }, some Err.divisionByZero)) :=
  ⟨C7_theorem.1 (mkStack [3, -7]) 3 (-7) [] rfl (by decide),
   C7_theorem.2 (mkStack [0, 5]) 5 [] rfl⟩

/-- C8: on a non-empty stack, `discard_n n` with `n` negative or at least
the size remaining below the popped top leaves exactly the prior top
value; with `0 ≤ n` below that remaining size it removes exactly the `n`
values under the top and keeps the top on top. -/
theorem C8_theorem :
    (∀ (m : Machine) (top : Int) (rest : List Int) (n : Int),
        m.stack = top :: rest → (n < 0 ∨ (rest.length : Int) ≤ n) →
        discard_n n m = ({ m with stack := [top] }, none)) ∧
    (∀ (m : Machine) (top : Int) (rest : List Int) (n : Int),
        m.stack = top :: rest → 0 ≤ n → n < (rest.length : Int) →
        discard_n n m =
          ({ m with stack := top :: rest.drop n.toNat }, none)) := by
  constructor
  · intro m top rest n h hn
    cases m
    simp only at h
    subst h
    simp only [discard_n]
    have hk : ((if n ≥ ((top :: rest).length : Int) ∨ n < 0
          then ((top :: rest).length : Int) - 1 else n)).toNat
        = rest.length := by
      by_cases hc : n ≥ ((top :: rest).length : Int) ∨ n < 0
      · rw [if_pos hc]
        simp only [List.length_cons]
        omega
      · rw [if_neg hc]
        simp only [List.length_cons] at hc
        rcases hn with hn | hn
        · omega
        · omega
    rw [hk, if_pos (le_refl rest.length), List.drop_length]
  · intro m top rest n h h0 hlt
    cases m
    simp only at h
    subst h
    simp only [discard_n]
    have hc : ¬ (n ≥ ((top :: rest).length : Int) ∨ n < 0) := by
      simp only [List.length_cons]
      omega
    rw [if_neg hc, if_pos (by omega : n.toNat ≤ rest.length)]

theorem C8_witness :
    discard_n 5 (mkStack [9, 1, 2]) =
      ({ mkStack [9, 1, 2] with stack := [9] }, none) ∧
    discard_n 1 (mkStack [9, 1, 2, 3]) =
      ({ mkStack [9, 1, 2, 3] with stack := [9, 2, 3] }, none) :=
  ⟨C8_theorem.1 (mkStack [9, 1, 2]) 9 [1, 2] 5 rfl (Or.inr (by decide)),
   C8_theorem.2 (mkStack [9, 1, 2, 3]) 9 [1, 2, 3] 1 rfl (by decide) (by decide)⟩

/-- C9: `output_char` pops `v` and succeeds exactly when
`0 ≤ v ≤ 0x10FFFF` (the CPython `chr` range, lone surrogates included),
appending the code point `v` to the output; outside that range it raises
the fatal ValueError and appends nothing (the pop still happened). -/
theorem C9_theorem :
    (∀ (m : Machine) (v : Int) (rest : List Int),
        m.stack = v :: rest → 0 ≤ v → v ≤ 0x10FFFF →
        output_char m =
          ({ m with stack := rest, output := m.output ++ [v.toNat] }, none)) ∧
    (∀ (m : Machine) (v : Int) (rest : List Int),
        m.stack = v :: rest → (v < 0 ∨ 0x10FFFF < v) →
        output_char m = ({ m with stack := rest }, some Err.valueError)) := by
  constructor
  · intro m v rest h h0 h1
    cases m
    simp only at h
    subst h
    simp [output_char, h0, h1]
  · intro m v rest h hout
    cases m
    simp only at h
    subst h
    have : ¬ (0 ≤ v ∧ v ≤ 0x10FFFF) := by omega
    simp [output_char, this]

theorem C9_witness :
    output_char (mkStack [0xD800]) =
      ({ mkStack [0xD800] with stack := [], output := [0xD800] }, none) ∧
    output_char (mkStack [-1]) =
      ({ mkStack [-1] with stack := [] }, some Err.valueError) :=
  ⟨C9_theorem.1 (mkStack [0xD800]) 0xD800 [] rfl (by decide) (by decide),
   C9_theorem.2 (mkStack [-1]) (-1) [] rfl (Or.inl (by decide))⟩

/-- C10: `input_char` front-pops the input before popping the address
from the data stack, so on a non-empty input and an empty stack it fails
with the fatal stack underflow while the consumed input character stays
consumed — the state at the error has the input tail only. -/
theorem C10_theorem (m : Machine) (a : Char) (restIn : List Char)
    (hin : m.input = a :: restIn) (hstk : m.stack = []) :
    input_char m = ({ m with input := restIn }, some Err.stackUnderflow) := by
  cases m
  simp only at hin hstk
  subst hin
  subst hstk
  rfl

theorem C10_witness :
    input_char { Machine.init [] [] with input := ['x'] } =
      ({ Machine.init [] [] with input := [] }, some Err.stackUnderflow) :=
  C10_theorem { Machine.init [] [] with input := ['x'] } 'x' [] rfl rfl

theorem discFrame_self {m : Machine} (h : m.loading = true) : DiscFrame m m :=
  ⟨rfl, rfl, rfl, rfl, rfl, h, rfl, Or.inl rfl⟩

theorem discFrame_pos {m : Machine} (h : m.loading = true) (q : WPos) :
    DiscFrame m { m with pos := q } :=
  ⟨rfl, rfl, rfl, rfl, rfl, h, rfl, Or.inl rfl⟩

theorem discFrame_loading {m m' : Machine} (d : DiscFrame m m') :
    m'.loading = true :=
  d.2.2.2.2.2.1

theorem io_parse_loading (m : Machine) (p : Nat) (h : m.loading = true) :
    DiscFrame m (io_parse m p).1 := by
  unfold io_parse
  cases hgc : get_command ioTable m.code p with
  | none => exact discFrame_self h
  | some v =>
      obtain ⟨op, p1⟩ := v
      dsimp only
      repeat' split
      all_goals first
        | exact discFrame_pos h _
        | exact absurd h (by assumption)

theorem arithmetic_parse_loading (m : Machine) (p : Nat)
    (h : m.loading = true) : DiscFrame m (arithmetic_parse m p).1 := by
  unfold arithmetic_parse
  cases hgc : get_command arithTable m.code p with
  | none => exact discFrame_self h
  | some v =>
      obtain ⟨op, p1⟩ := v
      dsimp only
      repeat' split
      all_goals first
        | exact discFrame_pos h _
        | exact absurd h (by assumption)

theorem heap_parse_loading (m : Machine) (p : Nat) (h : m.loading = true) :
    DiscFrame m (heap_parse m p).1 := by
  unfold heap_parse
  cases hgc : get_command heapTable m.code p with
  | none => exact discFrame_self h
  | some v =>
      obtain ⟨op, p1⟩ := v
      dsimp only
      repeat' split
      all_goals first
        | exact discFrame_pos h _
        | exact absurd h (by assumption)

theorem stack_parse_loading (m : Machine) (p : Nat) (h : m.loading = true) :
    DiscFrame m (stack_parse m p).1 := by
  unfold stack_parse
  cases hgc : get_command stackTable m.code p with
  | none => exact discFrame_self h
  | some v =>
      obtain ⟨op, p1⟩ := v
      dsimp only
      repeat' split
      all_goals first
        | exact discFrame_pos h _
        | exact absurd h (by assumption)

theorem flow_parse_loading (m : Machine) (p : Nat) (h : m.loading = true) :
    DiscFrame m (flow_parse m p).1 := by
  unfold flow_parse
  cases hgc : get_command flowTable m.code p with
  | none => exact discFrame_self h
  | some v =>
      obtain ⟨op, p1⟩ := v
      dsimp only
      repeat' split
      all_goals first
        | exact discFrame_pos h _
        | exact ⟨rfl, rfl, rfl, rfl, rfl, h, rfl, Or.inr ⟨_, _, rfl⟩⟩
        | exact absurd h (by assumption)

theorem step_loading (m : Machine) (p : Nat) (h : m.loading = true) :
    DiscFrame m (step m p).1 := by
  unfold step
  cases hgc : get_command impTable m.code p with
  | none => exact discFrame_self h
  | some v =>
      obtain ⟨fam, p2⟩ := v
      cases fam
      case stackF => exact stack_parse_loading _ p2 h
      case arithF => exact arithmetic_parse_loading _ p2 h
      case heapF => exact heap_parse_loading _ p2 h
      case ioF => exact io_parse_loading _ p2 h
      case flowF => exact flow_parse_loading _ p2 h

theorem runLoop_loading (fuel : Nat) :
    ∀ (m : Machine) (r : Machine × Option Err), m.loading = true →
      runLoop fuel m = some r → r.1.loading = true := by
  induction fuel with
  | zero =>
      intro m r h hr
      exact absurd hr (by simp [runLoop])
  | succ k ih =>
      intro m r h hr
      unfold runLoop at hr
      cases hpos : m.pos with
      | inf =>
          rw [hpos] at hr
          dsimp only at hr
          cases hr
          exact h
      | fin p =>
          rw [hpos] at hr
          dsimp only at hr
          by_cases hlt : p < m.code.length
          · rw [if_pos hlt] at hr
            cases hstep : step m p with
            | mk m' e =>
                have hml : m'.loading = true := by
                  have hd := discFrame_loading (step_loading m p h)
                  rw [hstep] at hd
                  exact hd
                cases e with
                | none =>
                    rw [hstep] at hr
                    dsimp only at hr
                    exact ih m' r hml hr
                | some e' =>
                    rw [hstep] at hr
                    dsimp only at hr
                    cases hr
                    exact hml
          · rw [if_neg hlt] at hr
            cases hr
            exact h

/-- C6: every loading-phase (Discovery) loop iteration leaves the data
stack, heap, output, input and return stack unchanged and keeps the phase
in Discovery, mutating at most the label table by one appended entry
(`mark_label`); the loading loop never leaves the loading phase on its
own; and the hand-off to the Execution phase resets the offset to 0,
clears the loading flag and changes nothing else — so the phase
transition happens exactly once, at the hand-off. -/
theorem C6_theorem :
    (∀ (m : Machine) (p : Nat), m.loading = true →
        DiscFrame m (step m p).1) ∧
    (∀ (fuel : Nat) (m : Machine) (r : Machine × Option Err),
        m.loading = true → runLoop fuel m = some r → r.1.loading = true) ∧
    (∀ m : Machine,
        (toExecution m).pos = WPos.fin 0 ∧
        (toExecution m).loading = false ∧
        (toExecution m).stack = m.stack ∧
        (toExecution m).heap = m.heap ∧
        (toExecution m).output = m.output ∧
        (toExecution m).input = m.input ∧
        (toExecution m).labels = m.labels ∧
        (toExecution m).returnPositions = m.returnPositions) :=
  ⟨step_loading,
   fun fuel m r h hr => runLoop_loading fuel m r h hr,
   fun _ => ⟨rfl, rfl, rfl, rfl, rfl, rfl, rfl, rfl⟩⟩

theorem C6_witness :
    DiscFrame (Machine.init [WChar.n, WChar.n, WChar.n] [])
      ((step (Machine.init [WChar.n, WChar.n, WChar.n] []) 0).1) ∧
    (({ Machine.init [WChar.n, WChar.n, WChar.n] [] with pos := WPos.fin 3 },
        (none : Option Err)) : Machine × Option Err).1.loading = true :=
  ⟨C6_theorem.1 (Machine.init [WChar.n, WChar.n, WChar.n] []) 0 rfl,
   C6_theorem.2.1 5 (Machine.init [WChar.n, WChar.n, WChar.n] [])
     ({ Machine.init [WChar.n, WChar.n, WChar.n] [] with pos := WPos.fin 3 },
       none) rfl rfl⟩

/-- C1 counterexample: the program `call_subroutine ""; mark_label "";
exit` runs to a successful termination (no error) via `exit` while the
Return Stack still holds the return position `4` — the claimed
UnbalancedSubroutines failure does not happen because the check
`self.return_positions and self.pos != float('inf')` is skipped when the
loop ended via `exit` (`pos` is infinite). -/
theorem C1_counterexample :
    (run 20 (Machine.init progC1 [])).map
        (fun r => (r.2, r.1.returnPositions, r.1.pos)) =
      some (none, [WPos.fin 4], WPos.inf) := rfl

/-- C1 (amended): after the execution loop ends, the fatal
UnbalancedSubroutines error is raised precisely when the Return Stack is
non-empty AND the loop did not end via `exit` (the offset is not
infinite); a successful `exit` therefore terminates with Success
regardless of the Return Stack contents, and the claimed at-exit
emptiness check does not exist. -/
theorem C1_theorem (m : Machine) :
    (finish m).2 = some Err.unbalancedSubroutines ↔
      m.returnPositions ≠ [] ∧ m.pos ≠ WPos.inf := by
  unfold finish
  split
  · rename_i h
    simpa using h
  · rename_i h
    split
    · simpa using h
    · simpa using h

/-- C5 counterexample: in the program `exit; mark_label "";
mark_label ""` the exit instruction is the first one scanned during the
Discovery phase, yet the run does not terminate with Success: Discovery
continues past it and fails with the fatal duplicate-label error, so
`exit` does not terminate the run regardless of phase. -/
theorem C5_counterexample :
    (run 20 (Machine.init progC5 [])).map (fun r => r.2) =
      some (some Err.duplicateLabel) := rfl

/-- C5 (amended): when the flow-control dispatch decodes the `exit`
token, the handler runs only in the Execution phase, where it sets the
offset to infinity; in the Discovery phase the token is decoded and
skipped with no effect beyond the offset advance.  Once the offset is
infinite in the execution phase, the run terminates with Success
whatever the position, return stack or remaining program. -/
theorem C5_theorem :
    (∀ (m : Machine) (p p1 : Nat),
        get_command flowTable m.code p = some (FlowOp.exitOp, p1) →
        flow_parse m p =
          (if m.loading then ({ m with pos := WPos.fin p1 }, none)
           else ({ m with pos := WPos.inf }, none))) ∧
    (∀ (m : Machine) (fuel : Nat), m.loading = false → m.code ≠ [] →
        m.pos = WPos.inf → run (fuel + 1) m = some (m, none)) := by
  constructor
  · intro m p p1 h
    unfold flow_parse
    rw [h]
  · intro m fuel hl hc hpos
    have hrl : runLoop (fuel + 1) m = some (m, none) := by
      unfold runLoop
      rw [hpos]
    unfold run
    rw [if_neg (fun h => hc (List.length_eq_zero.mp h)), hrl]
    simp [hl, finish, hpos]

theorem C5_witness :
    flow_parse (Machine.init [WChar.n, WChar.n] []) 0 =
      ({ Machine.init [WChar.n, WChar.n] [] with pos := WPos.fin 2 }, none) ∧
    run 1 { Machine.init [WChar.n, WChar.n] [] with
              pos := WPos.inf, loading := false } =
      some ({ Machine.init [WChar.n, WChar.n] [] with
                pos := WPos.inf, loading := false }, none) :=
  ⟨C5_theorem.1 (Machine.init [WChar.n, WChar.n] []) 0 2 rfl,
   C5_theorem.2 { Machine.init [WChar.n, WChar.n] [] with
                    pos := WPos.inf, loading := false } 0 rfl (by decide) rfl⟩
